import Mathlib

/-!
# Verification of the SincNet notebook core

Shallow embedding of the algorithmic core of `src/SincNet.ipynb`:
the dataset preparation pipeline (`SincNetDataset._prepare_sample`,
`SincNetDataset.__getitem__`) and the sinc-layer (`Custom.forward`).

Modelling conventions:
* audio amplitudes and scalar hyperparameters of the data pipeline are
  exact rationals (the Python floats on the failing/witness inputs used
  below are exactly representable, so IEEE and exact arithmetic agree
  there); the normalized segments live in `ℝ` because `torch.std` takes
  a square root;
* torch tensor division by zero raises no exception (it yields
  `NaN`/`inf`); it is modelled by the `ℝ` convention `x / 0 = 0`, and no
  theorem below depends on the value of such a quotient, only on the
  fact that the surrounding code raises no exception.  Python *scalar*
  division by zero (`len // number` with `number = 0`) does raise
  `ZeroDivisionError` and is modelled by an explicit error branch;
* Python exceptions are modelled by `Except PyErr`;
* the `torch.rand` draws made inside `Custom.forward` are passed to the
  embedding as explicit arguments, which makes the remaining computation
  a pure function of its inputs.
-/

namespace SincNet

/-- The Python exceptions that the embedded code can raise. -/
inductive PyErr where
  /-- `UnboundLocalError`: a local name is read before any assignment. -/
  | unboundLocal
  /-- `NameError`: an undefined name is read (`return resultsl`). -/
  | nameError
  /-- `RuntimeError`: invalid shapes passed to `F.conv1d`, or a
  non-positive section count passed to `torch.tensor_split`. -/
  | runtime
  /-- `ZeroDivisionError`: a Python scalar division by zero
  (`sample.shape[1] // number` with `number = 0`). -/
  | zeroDivision
  deriving DecidableEq, Repr

/-! ## Segmenter: `SincNetDataset._prepare_sample` -/

/-- `torch.max(torch.abs(sample[0]))` over a waveform, with `0` for the
empty waveform (where torch would raise; every input considered below is
nonempty). -/
def maxAbs (w : List ℚ) : List ℚ → ℚ
  | [] => 0
  | a :: rest => max |a| (maxAbs w rest)

/-- The noise gate of `_prepare_sample`:
`clean = sample[0][sample[0] > self.trashhold*torch.max(torch.abs(sample[0]))]`.
Note that the mask compares the signed value, not its absolute value, and
strictly. -/
def denoise (thr : ℚ) (w : List ℚ) : List ℚ :=
  w.filter (fun a => thr * maxAbs w w < a)

/-- The part sizes produced by `torch.tensor_split(x, k, dim=1)` on a
length-`n` axis: the first `n % k` parts have size `n / k + 1`, the
remaining ones size `n / k`. -/
def splitSizes (n k : ℕ) : List ℕ :=
  (List.range k).map (fun i => if i < n % k then n / k + 1 else n / k)

/-- Cut a list into consecutive pieces of the given sizes. -/
def splitBySizes {α : Type} : List ℕ → List α → List (List α)
  | [], _ => []
  | s :: rest, w => w.take s :: splitBySizes rest (w.drop s)

/-- `torch.tensor_split(w, k, dim=1)`: split `w` into `k` consecutive
near-equal parts. -/
def tensor_split {α : Type} (w : List α) (k : ℕ) : List (List α) :=
  splitBySizes (splitSizes w.length k) w

/-- `torch.mean` of a chunk (as a real number). -/
noncomputable def chunkMean (s : List ℚ) : ℝ :=
  (s.map (fun a => (a : ℝ))).sum / s.length

/-- `torch.std` of a chunk: the default unbiased estimator, denominator
`length - 1`. -/
noncomputable def chunkStd (s : List ℚ) : ℝ :=
  Real.sqrt ((s.map (fun a => ((a : ℝ) - chunkMean s) ^ 2)).sum / ((s.length : ℝ) - 1))

/-- `samples[i] = (samples[i] - torch.mean(samples[i])) / torch.std(samples[i])`. -/
noncomputable def normalizeChunk (s : List ℚ) : List ℝ :=
  s.map (fun a => ((a : ℝ) - chunkMean s) / chunkStd s)

/-- The retained chunks of `_prepare_sample` before normalization:
`number = wavetime * sample_rate`; when the denoised length exceeds
`number`, `tensor_split` into `int(len // number + 1)` parts and drop the
last part (`samples = samples[:-1]`). -/
def rawChunks (wavetime thr : ℚ) (w : List ℚ) (sample_rate : ℚ) : List (List ℚ) :=
  let clean := denoise thr w
  let number := wavetime * sample_rate
  let k := (⌊(clean.length : ℚ) / number⌋ + 1).toNat
  (tensor_split clean k).dropLast

/-- `SincNetDataset._prepare_sample`.  When the denoised length is not
greater than `number`, the local name `samples` is never assigned, so the
final `for i in range(len(samples))` loop raises `UnboundLocalError`.
Inside the long branch, `sample.shape[1] // number` raises
`ZeroDivisionError` when `number = 0`, and when
`int(len // number + 1) ≤ 0` (negative `number`) `torch.tensor_split`
raises `RuntimeError` (its section count must be positive). -/
noncomputable def prepare_sample (wavetime thr : ℚ) (w : List ℚ) (sample_rate : ℚ) :
    Except PyErr (List (List ℝ)) :=
  let clean := denoise thr w
  let number := wavetime * sample_rate
  if number < (clean.length : ℚ) then
    if number = 0 then
      Except.error PyErr.zeroDivision
    else if ⌊(clean.length : ℚ) / number⌋ + 1 ≤ 0 then
      Except.error PyErr.runtime
    else
      Except.ok ((rawChunks wavetime thr w sample_rate).map normalizeChunk)
  else
    Except.error PyErr.unboundLocal

/-- The per-segment lengths of a `_prepare_sample` result. -/
def segLengths (r : Except PyErr (List (List ℝ))) : Except PyErr (List ℕ) :=
  r.map (fun segs => segs.map List.length)

/-- The denoise step that §4.1 of the spec describes, for comparison with
the code's `denoise`: keep exactly the samples whose absolute amplitude
is at least `threshold × max(|amplitude|)`. -/
def denoiseSpec (thr : ℚ) (w : List ℚ) : List ℚ :=
  w.filter (fun a => thr * maxAbs w w ≤ |a|)

/-! ## Dataset: `SincNetDataset.__getitem__` -/

/-- The dataset modes of `DATA_MODES = ['train', 'val', 'test']`. -/
inductive Mode where
  | train
  | val
  | test
  deriving DecidableEq, Repr

/-- `SincNetDataset.__getitem__` after the sample has been loaded:
`x = self._prepare_sample(x, f)`, the sample rate repeated once per
segment (`f = torch.FloatTensor([f for i in range(len(x))])`), and in
train/val mode the encoded label repeated once per segment.  The label
component is `none` in test mode, where the code returns only `(x, f)`. -/
noncomputable def getitem (mode : Mode) (wavetime thr : ℚ) (w : List ℚ)
    (sample_rate : ℚ) (label_id : ℤ) :
    Except PyErr (List (List ℝ) × List ℝ × Option (List ℝ)) :=
  match prepare_sample wavetime thr w sample_rate with
  | .error e => .error e
  | .ok x =>
    let f : List ℝ := List.replicate x.length (sample_rate : ℝ)
    match mode with
    | .test => .ok (x, f, none)
    | _ => .ok (x, f, some (List.replicate x.length (label_id : ℝ)))

/-! ## Theorems about the Segmenter -/

/-- Claim C2: the claim says that a denoised waveform longer than
`N = wavetime × sample_rate` yields `⌊len/N⌋` segments, each of length
exactly `N`.  Evaluating the code at `wavetime = 1`, `sample_rate = 4`
(`N = 4`) on a denoised waveform of 10 samples: `tensor_split` cuts the
waveform into `⌊10/4⌋ + 1 = 3` near-equal parts of sizes 4, 3, 3 (not
parts of length `N`), and after dropping the last part the two returned
segments have lengths 4 and 3 — not both `N = 4`, and not equal to each
other. -/
theorem prepare_sample_returns_unequal_short_segments :
    segLengths (prepare_sample 1 (1/100) [1,1,1,1,1,1,1,1,1,1] 4) = Except.ok [4, 3] := by
  have h1 : denoise (1/100) [1,1,1,1,1,1,1,1,1,1] = [1,1,1,1,1,1,1,1,1,1] := by
    norm_num [denoise, maxAbs, List.filter_cons, max_def, abs]
  have hraw : rawChunks 1 (1/100) [1,1,1,1,1,1,1,1,1,1] 4 = [[1,1,1,1],[1,1,1]] := by
    have h2 : ((⌊(([1,1,1,1,1,1,1,1,1,1] : List ℚ).length : ℚ)/((1:ℚ)*4)⌋ + 1)).toNat = 3 := by
      norm_num; decide
    simp only [rawChunks]; rw [h1, h2]; rfl
  simp only [prepare_sample]
  rw [h1, hraw]
  norm_num [normalizeChunk]
  rfl

/-- Claim C4: the claim says that a denoised waveform of length `≤ N`
yields zero segments with no exception.  In the code the local name
`samples` is assigned only inside the `if len(sample[0]) > number`
branch, so for a short waveform the trailing
`for i in range(len(samples))` loop raises `UnboundLocalError` instead of
returning an empty list: evaluated here at a denoised waveform of 3
samples with `N = 4`. -/
theorem prepare_sample_short_waveform_raises :
    prepare_sample 1 (1/100) [1, 1, 1] 4 = Except.error PyErr.unboundLocal := by
  have h1 : denoise (1/100) [1,1,1] = [1,1,1] := by
    norm_num [denoise, maxAbs, List.filter_cons, max_def, abs]
  simp only [prepare_sample]
  rw [h1]
  norm_num

/-- Claim C3, counterexample: the claim says the denoise step retains
exactly the samples with `|a| ≥ threshold × max|amplitude|`.  On the
waveform `[-1, 1/2]` with the default threshold `1/100`, the sample `-1`
satisfies the claimed retention bound (`1/100 × 1 ≤ |-1|`), yet the code
keeps only `[1/2]`: the mask compares the signed value, so `-1` is
discarded. -/
theorem denoise_discards_loud_negative :
    denoise (1/100) [-1, 1/2] = [1/2] ∧
    (1/100 : ℚ) * maxAbs [-1, 1/2] [-1, 1/2] ≤ |(-1 : ℚ)| ∧
    (-1 : ℚ) ∉ denoise (1/100) [-1, 1/2] := by
  have h : denoise (1/100) [-1, 1/2] = [1/2] := by
    norm_num [denoise, maxAbs, List.filter_cons, max_def, abs]
  refine ⟨h, ?_, ?_⟩
  · norm_num [maxAbs, max_def, abs]
  · rw [h]; norm_num

/-- Claim C3, amended: the denoise step retains exactly those samples
whose signed value strictly exceeds `threshold × max(|amplitude|)` over
the whole waveform; every other sample (in particular every non-positive
one) is discarded. -/
theorem denoise_mem_iff (thr : ℚ) (w : List ℚ) (a : ℚ) :
    a ∈ denoise thr w ↔ a ∈ w ∧ thr * maxAbs w w < a := by
  simp [denoise, List.mem_filter]

/-- Claim C8, counterexample: the claim says an all-constant retained
chunk (zero standard deviation) raises `DegenerateSegmentError`.  The
code defines no such error and raises nothing: on the constant waveform
`[2,2,2,2,2]` with `N = 2` (both retained chunks are `[2, 2]`, of zero
standard deviation) `_prepare_sample` returns normally. -/
theorem prepare_sample_zero_variance_returns :
    (prepare_sample 1 (1/100) [2,2,2,2,2] 2).isOk = true := by
  have h1 : denoise (1/100) [2,2,2,2,2] = [2,2,2,2,2] := by
    norm_num [denoise, maxAbs, List.filter_cons, max_def, abs]
  simp only [prepare_sample]
  rw [h1]
  norm_num [Except.isOk, Except.toBool]

/-- Claim C8, amended: whenever segmentation proceeds at all — a
positive segment size `number = wavetime × sample_rate` and a denoised
waveform longer than `number` — normalization raises no error for any
retained chunk, zero standard deviation included: the code divides by
the zero standard deviation anyway (in IEEE arithmetic the resulting
segment is NaN-valued; no `DegenerateSegmentError` exists in the code). -/
theorem prepare_sample_ok_of_long (wavetime thr sr : ℚ) (w : List ℚ)
    (h0 : 0 < wavetime * sr)
    (h : wavetime * sr < ((denoise thr w).length : ℚ)) :
    (prepare_sample wavetime thr w sr).isOk = true := by
  have hfl : (0:ℤ) ≤ ⌊((denoise thr w).length : ℚ) / (wavetime * sr)⌋ :=
    Int.floor_nonneg.mpr (div_nonneg (Nat.cast_nonneg _) h0.le)
  simp only [prepare_sample]
  rw [if_pos h, if_neg (ne_of_gt h0), if_neg (by omega)]
  rfl

/-- Witness for `prepare_sample_ok_of_long`: the hypotheses are
satisfied by the constant waveform `[2,2,2,2,2]` at `wavetime = 1`,
`sample_rate = 2`. -/
theorem prepare_sample_ok_of_long_witness :
    ((0 : ℚ) < 1 * 2) ∧
    ((1 : ℚ) * 2 < ((denoise (1/100) [2,2,2,2,2]).length : ℚ)) ∧
    (prepare_sample 1 (1/100) [2,2,2,2,2] 2).isOk = true := by
  have h0 : (0 : ℚ) < 1 * 2 := by norm_num
  have h : (1 : ℚ) * 2 < ((denoise (1/100) [2,2,2,2,2]).length : ℚ) := by
    have h1 : denoise (1/100) [2,2,2,2,2] = [2,2,2,2,2] := by
      norm_num [denoise, maxAbs, List.filter_cons, max_def, abs]
    rw [h1]; norm_num
  exact ⟨h0, h, prepare_sample_ok_of_long 1 (1/100) 2 [2,2,2,2,2] h0 h⟩

/-- Claim C10: in train and val modes, whenever `_prepare_sample`
returns a list of segments, `__getitem__` returns a triple `(x, f, y)`
in which `f` and `y` both have length equal to the number of segments in
`x`, every entry of `f` equals the file's sample rate, and every entry
of `y` equals the file's encoded integer label. -/
theorem getitem_trainval_repeats_rate_and_label (mode : Mode)
    (wavetime thr sr : ℚ) (w : List ℚ) (label_id : ℤ) (segs : List (List ℝ))
    (hmode : mode = Mode.train ∨ mode = Mode.val)
    (hp : prepare_sample wavetime thr w sr = Except.ok segs) :
    getitem mode wavetime thr w sr label_id =
      Except.ok (segs, List.replicate segs.length (sr : ℝ),
        some (List.replicate segs.length (label_id : ℝ))) ∧
    (List.replicate segs.length (sr : ℝ)).length = segs.length ∧
    (List.replicate segs.length ((label_id : ℤ) : ℝ)).length = segs.length ∧
    (∀ a ∈ List.replicate segs.length (sr : ℝ), a = (sr : ℝ)) ∧
    (∀ a ∈ List.replicate segs.length ((label_id : ℤ) : ℝ), a = (label_id : ℝ)) := by
  rcases hmode with rfl | rfl <;>
    exact ⟨by simp [getitem, hp], by simp, by simp,
      fun a ha => List.eq_of_mem_replicate ha, fun a ha => List.eq_of_mem_replicate ha⟩

/-- Witness for `getitem_trainval_repeats_rate_and_label`: the constant
waveform `[2,2,2,2,2]` at `wavetime = 1`, `sample_rate = 2` segments
into the two chunks `[2,2], [2,2]`, which normalize (by the zero-divisor
convention of the exact model) to `[0,0], [0,0]`. -/
theorem getitem_trainval_repeats_rate_and_label_witness :
    (Mode.train = Mode.train ∨ Mode.train = Mode.val) ∧
    prepare_sample 1 (1/100) [2,2,2,2,2] 2 = Except.ok [[0,0],[0,0]] ∧
    (getitem Mode.train 1 (1/100) [2,2,2,2,2] 2 7 =
      Except.ok ([[0,0],[0,0]], List.replicate ([[(0:ℝ),0],[0,0]]).length ((2:ℚ) : ℝ),
        some (List.replicate ([[(0:ℝ),0],[0,0]]).length ((7:ℤ) : ℝ))) ∧
    (List.replicate ([[(0:ℝ),0],[0,0]]).length ((2:ℚ) : ℝ)).length = ([[(0:ℝ),0],[0,0]]).length ∧
    (List.replicate ([[(0:ℝ),0],[0,0]]).length ((7:ℤ) : ℝ)).length = ([[(0:ℝ),0],[0,0]]).length ∧
    (∀ a ∈ List.replicate ([[(0:ℝ),0],[0,0]]).length ((2:ℚ) : ℝ), a = ((2:ℚ) : ℝ)) ∧
    (∀ a ∈ List.replicate ([[(0:ℝ),0],[0,0]]).length ((7:ℤ) : ℝ), a = ((7:ℤ) : ℝ))) := by
  have hp : prepare_sample 1 (1/100) [2,2,2,2,2] 2 = Except.ok [[0,0],[0,0]] := by
    have h1 : denoise (1/100) [2,2,2,2,2] = [2,2,2,2,2] := by
      norm_num [denoise, maxAbs, List.filter_cons, max_def, abs]
    have hraw : rawChunks 1 (1/100) [2,2,2,2,2] 2 = [[2,2],[2,2]] := by
      have h2 : ((⌊(([2,2,2,2,2] : List ℚ).length : ℚ)/((1:ℚ)*2)⌋ + 1)).toNat = 3 := by
        norm_num; decide
      simp only [rawChunks]; rw [h1, h2]; rfl
    simp only [prepare_sample]
    rw [h1, hraw]
    norm_num [normalizeChunk, chunkMean]
  exact ⟨Or.inl rfl, hp,
    getitem_trainval_repeats_rate_and_label Mode.train 1 (1/100) 2 [2,2,2,2,2] 7
      [[0,0],[0,0]] (Or.inl rfl) hp⟩

/-! ## Sinc layer: `Custom.forward`

The layer synthesizes the filter bank from two fresh `torch.rand` draws
per filter on every call; those draws appear below as the explicit
arguments `r1` (for `f_1`) and `r2` (for the second `torch.rand` in the
`f_2` line).  `PI` in the notebook is `np.pi`, modelled by `Real.pi`. -/

/-- `torch.sinc`: the normalized sinc function
`sin(π x) / (π x)`, with value `1` at `x = 0`. -/
noncomputable def torch_sinc (x : ℝ) : ℝ :=
  if x = 0 then 1 else Real.sin (Real.pi * x) / (Real.pi * x)

/-- `torch.hamming_window(L)` (periodic, the default):
`w[n] = 0.54 - 0.46·cos(2π n / L)`. -/
noncomputable def hamming_window (L : ℕ) (n : ℕ) : ℝ :=
  0.54 - 0.46 * Real.cos (2 * Real.pi * n / L)

/-- `f_1 = torch.rand(...) * sample_rate / 2`, for one draw `r1`. -/
noncomputable def f1_of_rand (r1 sr : ℝ) : ℝ := r1 * sr / 2

/-- `f_2 = f_1 + torch.abs(f_1 - torch.rand(...) * sample_rate / 2)`,
for draws `r1` and `r2`. -/
noncomputable def f2_of_rand (r1 r2 sr : ℝ) : ℝ :=
  f1_of_rand r1 sr + |f1_of_rand r1 sr - r2 * sr / 2|

/-- `g_filter = 2*f_2*torch.sinc(2*PI*f_2*n) - 2*f_1*torch.sinc(2*PI*f_1*n)`
at offset `n`. -/
noncomputable def g_filter (f1 f2 : ℝ) (n : ℕ) : ℝ :=
  2 * f2 * torch_sinc (2 * Real.pi * f2 * (n : ℝ)) -
    2 * f1 * torch_sinc (2 * Real.pi * f1 * (n : ℝ))

/-- One row of `result_filters = g_filter * hamming_window`: the length-`L`
windowed kernel of the filter with cutoffs `f1`, `f2`. -/
noncomputable def result_filter (f1 f2 : ℝ) (L : ℕ) : List ℝ :=
  (List.range L).map (fun n => g_filter f1 f2 n * hamming_window L n)

/-- The synthesized kernel bank, one kernel per `(f1, f2)` pair. -/
noncomputable def result_filters (f1s f2s : List ℝ) (L : ℕ) : List (List ℝ) :=
  (f1s.zip f2s).map (fun p => result_filter p.1 p.2 L)

/-- The kernel formula exactly as §4.2 of the spec states it, for
comparison with the code's `g_filter`: the same expression but with the
unnormalized sinc convention `sinc(x) = sin(x)/x`, `sinc(0) = 1`. -/
noncomputable def sincSpec (x : ℝ) : ℝ :=
  if x = 0 then 1 else Real.sin x / x

/-- The spec's unwindowed kernel value
`g[n] = 2·f2·sinc(2π·f2·n) − 2·f1·sinc(2π·f1·n)` with `sinc(x) = sin(x)/x`. -/
noncomputable def gSpec (f1 f2 : ℝ) (n : ℕ) : ℝ :=
  2 * f2 * sincSpec (2 * Real.pi * f2 * (n : ℝ)) -
    2 * f1 * sincSpec (2 * Real.pi * f1 * (n : ℝ))

/-- The dot product of the overlapping prefixes of two lists. -/
noncomputable def dot : List ℝ → List ℝ → ℝ
  | a :: as, b :: bs => a * b + dot as bs
  | _, _ => 0

/-- Valid (no padding, stride 1, dilation 1) 1-D cross-correlation of a
kernel `w` against a signal, as `F.conv1d` computes it for a single
input channel: slide `w` over every window of the signal. -/
noncomputable def correlate1d (w : List ℝ) : List ℝ → List ℝ
  | [] => []
  | a :: x =>
    if w.length ≤ x.length + 1 then dot (a :: x) w :: correlate1d w x else []

/-- `F.conv1d(x, ws)` for a batch of single-channel signals `x` and a
bank of single-channel kernels `ws`: one output channel per kernel. -/
noncomputable def conv1d (x : List (List ℝ)) (ws : List (List ℝ)) :
    List (List (List ℝ)) :=
  x.map (fun seg => ws.map (fun w => correlate1d w seg))

/-- `Custom.forward`.  After synthesizing the kernels and computing
`results = F.conv1d(x, result_filters)`, the method executes
`return resultsl` — the name `resultsl` is never defined, so the call
raises `NameError` (when the conv itself is shape-valid; `F.conv1d`
raises `RuntimeError` if a segment is shorter than the kernel). -/
noncomputable def forward (L : ℕ) (x : List (List ℝ)) (sample_rate : ℝ)
    (r1 r2 : List ℝ) : Except PyErr (List (List (List ℝ))) :=
  let f1s := r1.map (fun a => f1_of_rand a sample_rate)
  let f2s := (r1.zip r2).map (fun p => f2_of_rand p.1 p.2 sample_rate)
  let kernels := result_filters f1s f2s L
  if x.all (fun s => L ≤ s.length) then
    let _results := conv1d x kernels
    Except.error PyErr.nameError
  else
    Except.error PyErr.runtime

/-! ## Theorems about the sinc layer -/

/-- Claim C1: kernel synthesis is deterministic — two synthesis calls
with the same per-filter cutoff tables `f1`, `f2`, window length `L`
and sample rate produce identical kernel banks.  (With the random draws
made explicit, the synthesis reads only the cutoff tables and `L`; the
sample rate enters only through the construction of the cutoffs.) -/
theorem result_filters_deterministic (f1s f2s f1s' f2s' : List ℝ) (L L' : ℕ)
    (sr sr' : ℝ) (h1 : f1s = f1s') (h2 : f2s = f2s') (h3 : L = L')
    (h4 : sr = sr') :
    result_filters f1s f2s L = result_filters f1s' f2s' L' := by
  rw [h1, h2, h3]

/-- Witness for `result_filters_deterministic` at the cutoff table
`f1 = [100]`, `f2 = [200]`, `L = 251`, sample rate 16000. -/
theorem result_filters_deterministic_witness :
    (([100] : List ℝ) = [100] ∧ ([200] : List ℝ) = [200] ∧ (251 : ℕ) = 251 ∧
      (16000 : ℝ) = 16000) ∧
    result_filters [100] [200] 251 = result_filters [100] [200] 251 :=
  ⟨⟨rfl, rfl, rfl, rfl⟩,
    result_filters_deterministic [100] [200] [100] [200] 251 251 16000 16000
      rfl rfl rfl rfl⟩

/-- Claim C5: the claim (and the notebook's own markdown) states the
unwindowed kernel value `g[n] = 2·f2·sinc(2π·f2·n) − 2·f1·sinc(2π·f1·n)`
with `sinc(x) = sin(x)/x`.  The code instead passes `2·PI·f·n` to
`torch.sinc`, which already multiplies its argument by `π`.  At
`f1 = 0`, `f2 = 1/(2π)`, `n = 1` the code's kernel value is
`2·f2·sin(π)/π = 0` while the documented formula gives
`2·f2·sin(1)/1 = sin(1)/π ≠ 0`. -/
theorem g_filter_differs_from_documented_formula :
    g_filter 0 (1 / (2 * Real.pi)) 1 = 0 ∧
    gSpec 0 (1 / (2 * Real.pi)) 1 = Real.sin 1 / Real.pi ∧
    Real.sin 1 / Real.pi ≠ 0 := by
  have hpi : (0:ℝ) < Real.pi := Real.pi_pos
  have hpi0 : Real.pi ≠ 0 := ne_of_gt hpi
  have harg : 2 * Real.pi * (1 / (2 * Real.pi)) * ((1:ℕ) : ℝ) = 1 := by
    push_cast; field_simp
  have harg0 : 2 * Real.pi * (0:ℝ) * ((1:ℕ) : ℝ) = 0 := by ring
  have hs1 : torch_sinc 1 = 0 := by
    rw [torch_sinc, if_neg one_ne_zero, mul_one, Real.sin_pi, zero_div]
  have hs2 : sincSpec 1 = Real.sin 1 := by
    rw [sincSpec, if_neg one_ne_zero, div_one]
  have hsinpos : 0 < Real.sin 1 :=
    Real.sin_pos_of_pos_of_lt_pi one_pos (by linarith [Real.pi_gt_three])
  refine ⟨?_, ?_, ?_⟩
  · rw [g_filter, harg, harg0, hs1]
    ring
  · rw [gSpec, harg, harg0, hs2]
    field_simp
    ring
  · exact ne_of_gt (div_pos hsinpos hpi)

/-- Claim C6, counterexample: the claim says every constructed filter
satisfies `high_cutoff ≤ Nyquist = sample_rate/2` and
`high_cutoff > low_cutoff`.  At sample rate 16000: with draws
`r1 = 9/10`, `r2 = 0` the construction yields `f1 = 7200`,
`f2 = 7200 + |7200 − 0| = 14400 > 8000`, violating the Nyquist bound;
and with draws `r1 = r2 = 1/2` it yields `f2 = f1 = 4000`, violating
strictness. -/
theorem cutoff_construction_violates_claim :
    ¬ (f2_of_rand (9/10) 0 16000 ≤ 16000 / 2) ∧
    ¬ (f1_of_rand (1/2) 16000 < f2_of_rand (1/2) (1/2) 16000) := by
  constructor
  · simp only [f2_of_rand, f1_of_rand]
    rw [show (9:ℝ)/10 * 16000 / 2 - 0 * 16000 / 2 = 7200 by norm_num,
      abs_of_nonneg (by norm_num : (0:ℝ) ≤ 7200)]
    norm_num
  · simp only [f2_of_rand, f1_of_rand]
    rw [show (1:ℝ)/2 * 16000 / 2 - 1/2 * 16000 / 2 = 0 by norm_num, abs_zero]
    norm_num

/-- Claim C6, amended: for every filter produced at construction (draws
in `[0,1)`, positive sample rate), the cutoffs satisfy
`0 ≤ low_cutoff ≤ high_cutoff < sample_rate`; the high cutoff may equal
the low cutoff and may exceed Nyquist (anything below `sample_rate`). -/
theorem cutoff_construction_invariant (r1 r2 sr : ℝ)
    (h1 : 0 ≤ r1) (h2 : r1 < 1) (h3 : 0 ≤ r2) (h4 : r2 < 1) (h5 : 0 < sr) :
    0 ≤ f1_of_rand r1 sr ∧ f1_of_rand r1 sr ≤ f2_of_rand r1 r2 sr ∧
      f2_of_rand r1 r2 sr < sr := by
  refine ⟨div_nonneg (mul_nonneg h1 h5.le) (by norm_num), ?_, ?_⟩
  · exact le_add_of_nonneg_right (abs_nonneg _)
  · rw [f2_of_rand, f1_of_rand]
    rcases abs_cases (r1 * sr / 2 - r2 * sr / 2) with ⟨he, _⟩ | ⟨he, _⟩ <;> rw [he] <;>
      nlinarith [mul_pos (sub_pos.mpr h2) h5, mul_pos (sub_pos.mpr h4) h5]

/-- Witness for `cutoff_construction_invariant` at draws `r1 = r2 = 1/2`
and sample rate 16000. -/
theorem cutoff_construction_invariant_witness :
    ((0:ℝ) ≤ 1/2 ∧ (1/2:ℝ) < 1 ∧ (0:ℝ) ≤ 1/2 ∧ (1/2:ℝ) < 1 ∧ (0:ℝ) < 16000) ∧
    (0 ≤ f1_of_rand (1/2) 16000 ∧
      f1_of_rand (1/2) 16000 ≤ f2_of_rand (1/2) (1/2) 16000 ∧
      f2_of_rand (1/2) (1/2) 16000 < 16000) :=
  ⟨⟨by norm_num, by norm_num, by norm_num, by norm_num, by norm_num⟩,
    cutoff_construction_invariant (1/2) (1/2) 16000 (by norm_num) (by norm_num)
      (by norm_num) (by norm_num) (by norm_num)⟩

/-- Claim C9: for every shape-valid input batch (each segment at least
as long as the kernel) and every sample rate and pair of random draws,
`Custom.forward` reaches its `return resultsl` statement and raises
`NameError` — the name `resultsl` is never defined — so it never
returns the computed feature map. -/
theorem forward_raises_name_error (L : ℕ) (x : List (List ℝ)) (sr : ℝ)
    (r1 r2 : List ℝ) (h : ∀ s ∈ x, L ≤ s.length) :
    forward L x sr r1 r2 = Except.error PyErr.nameError := by
  simp only [forward]
  rw [if_pos (List.all_eq_true.mpr fun s hs => decide_eq_true (h s hs))]

/-- Witness for `forward_raises_name_error` on a batch of one length-3
segment with a length-2 kernel. -/
theorem forward_raises_name_error_witness :
    (∀ s ∈ [[(1:ℝ),2,3]], 2 ≤ s.length) ∧
    forward 2 [[(1:ℝ),2,3]] 16000 [1/2] [1/3] = Except.error PyErr.nameError := by
  have h : ∀ s ∈ [[(1:ℝ),2,3]], 2 ≤ s.length := by
    intro s hs
    rw [List.mem_singleton] at hs
    subst hs
    norm_num
  exact ⟨h, forward_raises_name_error 2 [[(1:ℝ),2,3]] 16000 [1/2] [1/3] h⟩

/-- The prefix dot product is the sum `Σ_k xs[k]·ws[k]` whenever the
kernel is no longer than the signal. -/
theorem dot_eq_sum (ws : List ℝ) : ∀ xs : List ℝ, ws.length ≤ xs.length →
    dot xs ws = ∑ k ∈ Finset.range ws.length, xs.getD k 0 * ws.getD k 0 := by
  induction ws with
  | nil => intro xs _; cases xs <;> simp [dot]
  | cons b bs ih =>
    intro xs h
    cases xs with
    | nil => simp at h
    | cons a as =>
      simp only [dot, List.length_cons]
      rw [Finset.sum_range_succ']
      rw [ih as (by simpa using h)]
      simp only [List.getD_cons_succ, List.getD_cons_zero]
      ring

/-- A kernel longer than the signal produces an empty correlation. -/
theorem correlate1d_eq_nil (w : List ℝ) (x : List ℝ) (h : x.length < w.length) :
    correlate1d w x = [] := by
  cases x with
  | nil => rfl
  | cons a as =>
    simp only [correlate1d]
    rw [if_neg (by simp only [List.length_cons] at h; omega)]

/-- The valid cross-correlation of a kernel of length `≤` the signal's
has length `signal length − kernel length + 1`. -/
theorem correlate1d_length (w : List ℝ) (hw : 0 < w.length) :
    ∀ x : List ℝ, w.length ≤ x.length →
      (correlate1d w x).length = x.length - w.length + 1 := by
  intro x
  induction x with
  | nil => intro h; rw [List.length_nil] at h; omega
  | cons a as ih =>
    intro h
    simp only [List.length_cons] at h
    simp only [correlate1d]
    rw [if_pos h]
    by_cases hcase : w.length ≤ as.length
    · simp only [List.length_cons, ih hcase]
      omega
    · rw [correlate1d_eq_nil w as (by omega)]
      simp only [List.length_cons, List.length_nil]
      omega

/-- Entry `t` of the valid cross-correlation is the sliding dot product
`Σ_k x[t+k]·w[k]`. -/
theorem correlate1d_getD (w : List ℝ) (hw : 0 < w.length) :
    ∀ (x : List ℝ) (t : ℕ), w.length ≤ x.length → t ≤ x.length - w.length →
      (correlate1d w x).getD t 0 =
        ∑ k ∈ Finset.range w.length, x.getD (t + k) 0 * w.getD k 0 := by
  intro x
  induction x with
  | nil => intro t h _; rw [List.length_nil] at h; omega
  | cons a as ih =>
    intro t h ht
    simp only [List.length_cons] at h ht
    simp only [correlate1d]
    rw [if_pos h]
    cases t with
    | zero =>
      simp only [List.getD_cons_zero]
      rw [dot_eq_sum w (a :: as) (by simp only [List.length_cons]; omega)]
      simp
    | succ u =>
      simp only [List.getD_cons_succ]
      have h1 : w.length ≤ as.length := by omega
      have h2 : u ≤ as.length - w.length := by omega
      rw [ih u h1 h2]
      refine Finset.sum_congr rfl fun k _ => ?_
      rw [show u + 1 + k = (u + k) + 1 by omega, List.getD_cons_succ]

/-- Claim C7: for a batch of `B` segments of length `N` and a bank of
`F` kernels of length `L < N`, the convolution stage computes an output
of shape `(B, F, N−L+1)` whose entry `[b, f, t]` is the cross-correlation
sum `Σ_{k<L} segment[b][t+k] · kernel[f][k]` for every `t ≤ N−L`. -/
theorem conv1d_cross_correlation (x ws : List (List ℝ)) (N L : ℕ)
    (hx : ∀ s ∈ x, s.length = N) (hw : ∀ w ∈ ws, w.length = L)
    (hL : 0 < L) (hLN : L < N) :
    (conv1d x ws).length = x.length ∧
    (∀ row ∈ conv1d x ws, row.length = ws.length) ∧
    (∀ b, b < x.length → ∀ f, f < ws.length →
      (((conv1d x ws).getD b []).getD f []).length = N - L + 1 ∧
      (∀ t, t ≤ N - L →
        (((conv1d x ws).getD b []).getD f []).getD t 0 =
          ∑ k ∈ Finset.range L,
            (x.getD b []).getD (t + k) 0 * (ws.getD f []).getD k 0)) := by
  refine ⟨by simp [conv1d], ?_, ?_⟩
  · intro row hrow
    simp only [conv1d, List.mem_map] at hrow
    obtain ⟨seg, -, rfl⟩ := hrow
    simp
  · intro b hb f hf
    have hmemb : x.getD b [] ∈ x := by
      rw [List.getD_eq_getElem x [] hb]
      exact List.getElem_mem hb
    have hmemf : ws.getD f [] ∈ ws := by
      rw [List.getD_eq_getElem ws [] hf]
      exact List.getElem_mem hf
    have hseglen : (x.getD b []).length = N := hx _ hmemb
    have hwlen : (ws.getD f []).length = L := hw _ hmemf
    have e1 : (conv1d x ws).getD b [] =
        ws.map (fun w => correlate1d w (x.getD b [])) := by
      have hb' : b < (conv1d x ws).length := by simpa [conv1d] using hb
      rw [List.getD_eq_getElem _ [] hb']
      simp only [conv1d, List.getElem_map]
      rw [← List.getD_eq_getElem x [] hb]
    have e2 : ((conv1d x ws).getD b []).getD f [] =
        correlate1d (ws.getD f []) (x.getD b []) := by
      rw [e1, List.getD_eq_getElem _ [] (by simpa using hf), List.getElem_map,
        ← List.getD_eq_getElem ws [] hf]
    have hw0 : 0 < (ws.getD f []).length := by rw [hwlen]; exact hL
    have hle : (ws.getD f []).length ≤ (x.getD b []).length := by
      rw [hwlen, hseglen]; exact hLN.le
    constructor
    · rw [e2, correlate1d_length _ hw0 _ hle, hseglen, hwlen]
    · intro t ht
      rw [e2, correlate1d_getD _ hw0 _ t hle (by rw [hseglen, hwlen]; exact ht),
        hwlen]

/-- Witness for `conv1d_cross_correlation` on one length-3 segment and
one length-2 kernel. -/
theorem conv1d_cross_correlation_witness :
    ((∀ s ∈ [[(1:ℝ),2,3]], s.length = 3) ∧ (∀ w ∈ [[(5:ℝ),7]], w.length = 2) ∧
      0 < 2 ∧ 2 < 3) ∧
    ((conv1d [[(1:ℝ),2,3]] [[(5:ℝ),7]]).length = [[(1:ℝ),2,3]].length ∧
     (∀ row ∈ conv1d [[(1:ℝ),2,3]] [[(5:ℝ),7]], row.length = [[(5:ℝ),7]].length) ∧
     (∀ b, b < [[(1:ℝ),2,3]].length → ∀ f, f < [[(5:ℝ),7]].length →
       (((conv1d [[(1:ℝ),2,3]] [[(5:ℝ),7]]).getD b []).getD f []).length = 3 - 2 + 1 ∧
       (∀ t, t ≤ 3 - 2 →
         (((conv1d [[(1:ℝ),2,3]] [[(5:ℝ),7]]).getD b []).getD f []).getD t 0 =
           ∑ k ∈ Finset.range 2,
             ([[(1:ℝ),2,3]].getD b []).getD (t + k) 0 *
               ([[(5:ℝ),7]].getD f []).getD k 0))) := by
  have h1 : ∀ s ∈ [[(1:ℝ),2,3]], s.length = 3 := by
    intro s hs; rw [List.mem_singleton] at hs; subst hs; rfl
  have h2 : ∀ w ∈ [[(5:ℝ),7]], w.length = 2 := by
    intro w hw; rw [List.mem_singleton] at hw; subst hw; rfl
  exact ⟨⟨h1, h2, by norm_num, by norm_num⟩,
    conv1d_cross_correlation _ _ 3 2 h1 h2 (by norm_num) (by norm_num)⟩

end SincNet
